import Mathlib

/-!
Shallow embedding of the parts of the Firefly framework that the
specification's claims are about: the RDB storage interface
(column/index derivation, add/update/remove/execute discipline), the
generic query service with its pagination envelope, and event
equality.  Definitions are translated from the Python sources;
classes whose source file is not available (the Column/Index
dataclasses, the lazy Repository and the Envelope) are modelled from
the specification and say so in their doc comments.
-/

namespace Firefly

/-- Column descriptor of the storage mapping layer.
Modelled from the spec: the Column dataclass lives in
rdb_repository.py, which is not among the provided sources; per the
spec a Column describes a name, a semantic type, an optional length
and an is-identifier flag.  Types are represented by their names. -/
structure Column where
  name : String
  type : String
  length : Option Nat := none
  is_id : Bool := false
deriving DecidableEq

/-- Index descriptor of the storage mapping layer.
Modelled from the spec: the Index dataclass lives in
rdb_repository.py, not among the provided sources; per the spec an
Index describes a table, an ordered list of column names and a
uniqueness flag.  get_entity_indexes additionally reads an attribute
called name, which the spec does not list; it is modelled as an
optional attribute that the constructor calls inside
get_entity_indexes leave unset. -/
structure Index where
  table : String
  columns : List String
  unique : Bool := false
  name : Option String := none
deriving DecidableEq

/-- Value stored under the index key of a dataclass field's metadata:
the literal True, a string (the name of a composite index), or any
other value (which get_entity_indexes ignores). -/
inductive IndexTag where
  | isTrue
  | named (s : String)
  | other
deriving DecidableEq

/-- Metadata of one dataclass field of an entity, as read by the
storage interface: the field's name, its type annotation (as a name),
and the length, id, index and unique metadata entries.  idMeta models
the id key: none when absent, some b when present with truthiness b
(so that both its presence and its truthiness can be read, matching
the two distinct reads in the Python code).  uniqueIsTrue models the
test that metadata.get of unique, defaulted to False, is True. -/
structure FieldMeta where
  name : String
  typeName : String
  length : Option Nat := none
  idMeta : Option Bool := none
  indexTag : Option IndexTag := none
  uniqueIsTrue : Bool := false
deriving DecidableEq

/-- Subclass-configurable flags of RdbStorageInterface that column
derivation reads: _map_all and _map_indexes (both default False). -/
structure StorageCfg where
  map_all : Bool := false
  map_indexes : Bool := false
deriving DecidableEq

/-- Column built for an entity field by get_entity_columns: name and
type annotation of the field, the length metadata, and is_id set to
the truthiness of the id metadata entry (absent means False). -/
def fieldColumn (f : FieldMeta) : Column :=
  { name := f.name, type := f.typeName, length := f.length,
    is_id := f.idMeta.getD false }

/-- Opaque serialized-entity column, built as a Column whose name is
document and whose type is str. -/
def documentColumn : Column := { name := "document", type := "str" }

/-- Python's startswith with the one-character underscore argument: a
string starts with an underscore exactly when its first character is
one. -/
def pyStartsUnderscore (s : String) : Bool :=
  match s.data with
  | [] => false
  | c :: _ => c == '_'

/-- Guard of the loop body of get_entity_columns: a field is skipped
when its name starts with an underscore, and is otherwise appended
when map-all mode is on, or when index mapping is on and the field
has an index metadata entry, or when it has an id metadata entry. -/
def mapsField (cfg : StorageCfg) (f : FieldMeta) : Bool :=
  !pyStartsUnderscore f.name &&
    (cfg.map_all || (cfg.map_indexes && f.indexTag.isSome) || f.idMeta.isSome)

/-- Python's list.insert: inserts before position n, clamping n to the
list's length (so inserting at 1 into an empty list appends). -/
def pyInsert (n : Nat) (a : α) (l : List α) : List α :=
  l.take n ++ a :: l.drop n

/-- RdbStorageInterface.get_entity_columns: iterates the entity's
fields in declaration order, appending a Column for each field the
guard admits; when not in map-all mode, a document column is inserted
at position 1 of the result. -/
def get_entity_columns (cfg : StorageCfg) (fs : List FieldMeta) : List Column :=
  let ret := (fs.filter (mapsField cfg)).map fieldColumn
  if !cfg.map_all then pyInsert 1 documentColumn ret else ret

/-- Replace the first element satisfying p by g of it, leaving the
rest unchanged; models an in-place mutation of the element that a
Python next over a filter returned. -/
def mutateFirst (p : Index → Bool) (g : Index → Index) : List Index → List Index
  | [] => []
  | i :: is => if p i then g i :: is else i :: mutateFirst p g is

/-- One iteration of the loop of get_entity_indexes, acting on the
accumulator ret.  A field without an index metadata entry is skipped.
An index entry that is the literal True appends a fresh single-column
Index.  An index entry that is a string nm runs next over a filter of
ret for an index named nm: when the filter is empty, next raises
StopIteration; when an index is found (a dataclass instance is
truthy, so the not-idx branch of the Python code is never taken), the
field's column is appended to it and uniqueness is promoted. -/
def indexStep (table : String) (ret : List Index) (f : FieldMeta) :
    Except String (List Index) :=
  match f.indexTag with
  | none => .ok ret
  | some .isTrue =>
      .ok (ret ++ [{ table := table, columns := [f.name], unique := f.uniqueIsTrue }])
  | some (.named nm) =>
      match ret.find? (fun i => i.name == some nm) with
      | none => .error "StopIteration"
      | some _ =>
          .ok (mutateFirst (fun i => i.name == some nm)
            (fun i => { i with columns := i.columns ++ [f.name],
                               unique := i.unique || f.uniqueIsTrue }) ret)
  | some .other => .ok ret

/-- RdbStorageInterface.get_entity_indexes: folds indexStep over the
entity's fields in declaration order, starting from the empty list;
an uncaught StopIteration aborts the whole call. -/
def get_entity_indexes (table : String) (fs : List FieldMeta) :
    Except String (List Index) :=
  fs.foldlM (indexStep table) []

/-! Entity instances as attribute stores, and the trace of primitive
calls made by the public operations of RdbStorageInterface. -/

/-- Attribute state of a Python entity instance: an association list
from attribute name to value.  hasattr is key membership; attribute
values are opaque and represented by the Int timestamp or value last
written. -/
abbrev Attrs := List (String × Int)

/-- Python hasattr on the attribute store. -/
def hasattr : Attrs → String → Bool
  | [], _ => false
  | (k0, _) :: rest, k => k0 == k || hasattr rest k

/-- Python getattr on the attribute store (none when absent). -/
def getattr : Attrs → String → Option Int
  | [], _ => none
  | (k0, v) :: rest, k => if k0 == k then some v else getattr rest k

/-- Python setattr on the attribute store: overwrites the first
binding of the key, appends when absent. -/
def setattr : Attrs → String → Int → Attrs
  | [], k, v => [(k, v)]
  | (k0, v0) :: rest, k, v =>
      if k0 == k then (k, v) :: rest else (k0, v0) :: setattr rest k v

/-- Primitive call of RdbStorageInterface, recorded in order: the
connect-if-needed hook invoked by _check_prerequisites, the abstract
storage primitives, and the raw SQL execution primitive (carrying the
template the public operation rendered). -/
inductive Call where
  | ensure_connected
  | add_prim
  | all_prim
  | find_prim
  | remove_prim
  | update_prim
  | execute_prim (template : String)
deriving DecidableEq

/-- Whether a primitive call touches storage (everything except the
connect-if-needed hook). -/
def isStorageAccess : Call → Bool
  | .ensure_connected => false
  | _ => true

/-- A trace respects the connection discipline when no storage access
occurs before the first ensure-connected call. -/
def ensuresBeforeStorage : List Call → Bool
  | [] => true
  | .ensure_connected :: _ => true
  | c :: rest => !isStorageAccess c && ensuresBeforeStorage rest

/-- RdbStorageInterface.add: _check_prerequisites (which calls
_ensure_connected) then the _add primitive. -/
def addCalls : List Call := [.ensure_connected, .add_prim]

/-- RdbStorageInterface.all: _check_prerequisites then _all. -/
def allCalls : List Call := [.ensure_connected, .all_prim]

/-- RdbStorageInterface.find: _check_prerequisites then _find. -/
def findCalls : List Call := [.ensure_connected, .find_prim]

/-- RdbStorageInterface.remove: after _check_prerequisites, a soft
delete (set the deleted_on attribute to the current time and call the
_update primitive) when the entity has a deleted_on attribute and
force is not set, else the _remove primitive.  Returns the entity's
attribute state afterwards and the trace of primitive calls. -/
def removeOp (now : Int) (e : Attrs) (force : Bool) : Attrs × List Call :=
  if hasattr e "deleted_on" && !force then
    (setattr e "deleted_on" now, [.ensure_connected, .update_prim])
  else
    (e, [.ensure_connected, .remove_prim])

/-- RdbStorageInterface.update: after _check_prerequisites, sets the
updated_on attribute to the current time when the entity has one, then
calls the _update primitive.  Returns the entity's attribute state
afterwards and the trace of primitive calls. -/
def updateOp (now : Int) (e : Attrs) : Attrs × List Call :=
  (if hasattr e "updated_on" then setattr e "updated_on" now else e,
   [.ensure_connected, .update_prim])

/-- RdbStorageInterface.execute: calls the _execute primitive
directly, with no _check_prerequisites. -/
def executeCalls (template : String) : List Call := [.execute_prim template]

/-- RdbStorageInterface.clear: delegates to execute with the
truncate-table template. -/
def clearCalls : List Call := executeCalls "sql/truncate_table.sql"

/-- RdbStorageInterface.destroy: delegates to execute with the
drop-table template. -/
def destroyCalls : List Call := executeCalls "sql/drop_table.sql"

/-- RdbStorageInterface.create_table: delegates to execute with the
create-table template. -/
def create_tableCalls : List Call := executeCalls "sql/create_table.sql"

/-- RdbStorageInterface.create_index: delegates to execute with the
add-index template. -/
def create_indexCalls : List Call := executeCalls "sql/add_index.sql"

/-- RdbStorageInterface.add_column: delegates to execute with the
add-column template. -/
def add_columnCalls : List Call := executeCalls "sql/add_column.sql"

/-! Event equality. -/

/-- A Python type, identified by its qualified name. -/
abbrev PyType := String

/-- Value an Event may be compared against: a string, a type, a tuple
of types (which the builtin isinstance accepts), or any other value
(on which isinstance raises TypeError). -/
inductive PyVal where
  | str (s : String)
  | type (t : PyType)
  | tupleOfTypes (ts : List PyType)
  | otherVal
deriving DecidableEq

/-- An Event instance, abstracted to what its dunder methods read: the
source_context set at construction, the class name, and the list of
types the instance satisfies (its class and every base). -/
structure EventModel where
  source_context : Option String
  className : String
  instanceTypes : List PyType
deriving DecidableEq

/-- Event dunder str: source_context dot class name when
source_context is not None, else just the class name. -/
def strEvent (e : EventModel) : String :=
  match e.source_context with
  | some sc => sc ++ "." ++ e.className
  | none => e.className

/-- The builtin isinstance applied to the event and a candidate
second argument: defined for a type or a tuple of types, a TypeError
otherwise. -/
def isinstanceEvent (e : EventModel) : PyVal → Except String Bool
  | .type t => .ok (e.instanceTypes.contains t)
  | .tupleOfTypes ts => .ok (ts.any (fun t => e.instanceTypes.contains t))
  | _ => .error "TypeError"

/-- Event dunder eq: returns True when the other value is a string
equal to str of self; otherwise returns isinstance of self against
the other value, converting a TypeError into False. -/
def eventEq (e : EventModel) (other : PyVal) : Bool :=
  if (match other with
      | .str s => s == strEvent e
      | _ => false) then
    true
  else
    match isinstanceEvent e other with
    | .ok b => b
    | .error _ => false

/-! The generic query service and its pagination envelope. -/

/-- Modelled from the spec: the Repository class is not among the
provided sources.  Per the spec it is a lazy, restartable collection:
it records the criteria (a boolean-expression tree, modelled as a
predicate), the storage-side sort (an ordered multi-key sort
delegated to storage, modelled as an arbitrary reordering function)
and the offset and limit of a bounded fetch; materializing executes
one storage query that applies the criteria, then the sort, then the
offset and limit, and its len issues a count query over the criteria
alone. -/
structure LazyQuery (E : Type) where
  db : List E
  pred : Option (E → Bool) := none
  sortFn : Option (List E → List E) := none
  range : Option (Nat × Nat) := none

/-- Rows matching the recorded criteria. -/
def LazyQuery.matching {E : Type} (q : LazyQuery E) : List E :=
  match q.pred with
  | none => q.db
  | some p => q.db.filter p

/-- Python len of the lazy collection: the count query over the
criteria, ignoring any recorded range. -/
def LazyQuery.pyLen {E : Type} (q : LazyQuery E) : Nat :=
  q.matching.length

/-- Python slice of the lazy collection from start to stop: records
offset start and limit stop minus start for the bounded fetch. -/
def LazyQuery.getSlice {E : Type} (q : LazyQuery E) (start stop : Nat) :
    LazyQuery E :=
  { q with range := some (start, stop - start) }

/-- Repository sort: records the storage-side sort. -/
def LazyQuery.sortBy {E : Type} (q : LazyQuery E) (f : List E → List E) :
    LazyQuery E :=
  { q with sortFn := some f }

/-- Materialization of the lazy collection: one storage query
applying criteria, then sort, then offset and limit. -/
def LazyQuery.toList {E : Type} (q : LazyQuery E) : List E :=
  let m := match q.sortFn with
    | none => q.matching
    | some f => f q.matching
  match q.range with
  | none => m
  | some (o, l) => (m.drop o).take l

/-- Modelled from the spec: Repository.find is not among the provided
sources; per the spec it fails with NoResultFound on zero matches and
MultipleResultsFound on more than one. -/
def repoFind {E : Type} (idOf : E → String) (db : List E) (v : String) :
    Except String E :=
  match db.filter (fun e => idOf e == v) with
  | [] => .error "NoResultFound"
  | [e] => .ok e
  | _ => .error "MultipleResultsFound"

/-- Keyword arguments of the generic query service call, with key
presence distinguished from a None value where the code distinguishes
them: limitKw is none when the limit key is absent, some none when it
is present with value None, and some of some n when it carries a
number (likewise offsetKw).  The criteria argument is modelled as the
predicate its deserialized expression tree denotes, and the sort
argument as the storage-side reordering it denotes. -/
structure QueryKwargs (E : Type) where
  idArg : Option String := none
  criteria : Option (E → Bool) := none
  sortKw : Option (List E → List E) := none
  limitKw : Option (Option Nat) := none
  offsetKw : Option (Option Nat) := none

/-- Result of the generic query service: the result of a direct find
when the entity's identifier was among the keyword arguments, a plain
list, or a pagination Envelope.  Modelled from the spec: the Envelope
class is not among the provided sources; per the spec it carries
items, offset, limit and a total, and the set_range call stores its
three arguments as offset, limit and total. -/
inductive QueryResult (E : Type) where
  | fromFind (r : Except String E)
  | plain (items : List E)
  | envelope (items : List E) (offset limit : Nat) (total : Int)

/-- QueryService dunder call.  When the identifier argument is
present, a direct find.  Otherwise limit and offset are read only
when both keys are present; the repository is filtered when criteria
is present; when both limit and offset are non-None, the count query
runs, the lazy collection is sliced from offset to offset plus limit
and the call is marked paginated; a sort argument is then recorded on
the (possibly sliced) lazy collection; a paginated call returns an
Envelope of the materialized items with range offset, limit and total
count minus one, and an unpaginated call returns the materialized
list. -/
def queryCall {E : Type} (idOf : E → String) (db : List E)
    (kw : QueryKwargs E) : QueryResult E :=
  match kw.idArg with
  | some v => .fromFind (repoFind idOf db v)
  | none =>
    let lo : Option Nat × Option Nat :=
      if kw.limitKw.isSome && kw.offsetKw.isSome then
        (kw.limitKw.getD none, kw.offsetKw.getD none)
      else (none, none)
    let entities : LazyQuery E :=
      match kw.criteria with
      | some p => { db := db, pred := some p }
      | none => { db := db }
    match lo with
    | (some l, some o) =>
      let count := entities.pyLen
      let sliced := entities.getSlice o (o + l)
      let sorted := match kw.sortKw with
        | some f => sliced.sortBy f
        | none => sliced
      .envelope sorted.toList o l ((count : Int) - 1)
    | _ =>
      let sorted := match kw.sortKw with
        | some f => entities.sortBy f
        | none => entities
      .plain sorted.toList

/-- Rows of the database matching an optional criteria argument. -/
def matchingOf {E : Type} (db : List E) (c : Option (E → Bool)) : List E :=
  match c with
  | none => db
  | some p => db.filter p

/-- Application of an optional sort argument. -/
def sortedOf {E : Type} (s : Option (List E → List E)) (l : List E) : List E :=
  match s with
  | none => l
  | some f => f l

/-- Concrete event used in the proofs about Event equality: an event
of class ContainerRegistered from the firefly context. -/
def sampleEvent : EventModel :=
  { source_context := some "firefly", className := "ContainerRegistered",
    instanceTypes := ["firefly.ContainerRegistered", "firefly.Event",
                      "firefly.Message", "object"] }

/-! Helper lemmas. -/

theorem getattr_setattr_self (e : Attrs) (k : String) (v : Int) :
    getattr (setattr e k v) k = some v := by
  induction e with
  | nil => simp [setattr, getattr]
  | cons hd tl ih =>
    obtain ⟨k0, v0⟩ := hd
    by_cases h : k0 = k
    · simp [setattr, getattr, h]
    · simp [setattr, getattr, h, ih]

theorem getattr_setattr_ne (e : Attrs) (k : String) (v : Int) (k2 : String)
    (h : k2 ≠ k) : getattr (setattr e k v) k2 = getattr e k2 := by
  have hne : k ≠ k2 := fun hc => h hc.symm
  induction e with
  | nil => simp [setattr, getattr, hne]
  | cons hd tl ih =>
    obtain ⟨k0, v0⟩ := hd
    by_cases h0 : k0 = k
    · subst h0
      simp [setattr, getattr, hne]
    · simp [setattr, getattr, h0, ih]

theorem mem_pyInsert {α : Type} {x a : α} {n : Nat} {l : List α} :
    x ∈ pyInsert n a l ↔ x = a ∨ x ∈ l := by
  unfold pyInsert
  rw [List.mem_append, List.mem_cons]
  constructor
  · rintro (h | h | h)
    · exact Or.inr (List.take_subset n l h)
    · exact Or.inl h
    · exact Or.inr (List.drop_subset n l h)
  · rintro (rfl | h)
    · exact Or.inr (Or.inl rfl)
    · rcases List.mem_append.mp ((List.take_append_drop n l).symm ▸ h) with h1 | h2
      · exact Or.inl h1
      · exact Or.inr (Or.inr h2)

theorem filter_pyInsert {α : Type} (p : α → Bool) (a : α) (n : Nat)
    (l : List α) (hl : ∀ x ∈ l, p x = false) (ha : p a = true) :
    (pyInsert n a l).filter p = [a] := by
  unfold pyInsert
  rw [List.filter_append, List.filter_cons_of_pos ha]
  have h1 : (l.take n).filter p = [] :=
    List.filter_eq_nil_iff.mpr fun x hx => by
      simp [hl x (List.take_subset n l hx)]
  have h2 : (l.drop n).filter p = [] :=
    List.filter_eq_nil_iff.mpr fun x hx => by
      simp [hl x (List.drop_subset n l hx)]
  rw [h1, h2]
  rfl

theorem filter_pyInsert_of_none {α : Type} (p : α → Bool) (a : α) (n : Nat)
    (l : List α) (hl : ∀ x ∈ l, p x = true) (ha : p a = false) :
    (pyInsert n a l).filter p = l := by
  unfold pyInsert
  rw [List.filter_append, List.filter_cons_of_neg (by simp [ha])]
  have h1 : (l.take n).filter p = l.take n :=
    List.filter_eq_self.mpr fun x hx => hl x (List.take_subset n l hx)
  have h2 : (l.drop n).filter p = l.drop n :=
    List.filter_eq_self.mpr fun x hx => hl x (List.drop_subset n l hx)
  rw [h1, h2, List.take_append_drop]

/-! Claim theorems. -/

/-- Claim C1 (code bug): on an entity whose fields name and email are
both tagged with the string index name idx_name_email, the very first
loop iteration of get_entity_indexes runs next over a filter of the
empty accumulator, which raises StopIteration instead of starting the
merged composite index; no merged Index is ever returned. -/
theorem get_entity_indexes_stopiteration :
    get_entity_indexes "iam_users"
      [{ name := "name", typeName := "str",
         indexTag := some (IndexTag.named "idx_name_email") },
       { name := "email", typeName := "str",
         indexTag := some (IndexTag.named "idx_name_email"),
         uniqueIsTrue := true }]
      = Except.error "StopIteration" := rfl

/-- Claim C2 (code bug): with two matching entities and limit one,
offset zero, the query service returns an Envelope whose total is
one (the count minus one passed to set_range), while the unpaginated
result has length two; the total therefore never equals the length of
the unpaginated result. -/
theorem queryCall_total_off_by_one :
    queryCall (fun n : Nat => toString n) [10, 20]
      { limitKw := some (some 1), offsetKw := some (some 0) }
      = QueryResult.envelope [10] 0 1 1
    ∧ (matchingOf [10, 20] (none : Option (Nat → Bool))).length = 2 :=
  ⟨rfl, rfl⟩

/-- Claim C4: remove without force on an entity with a deleted_on
attribute sets that attribute to the current time and issues the
update primitive; remove with force, and remove of an entity without
a deleted_on attribute, issue the remove primitive and leave the
entity unchanged. -/
theorem remove_soft_delete_contract (now : Int) (e : Attrs) :
    (hasattr e "deleted_on" = true →
        removeOp now e false
          = (setattr e "deleted_on" now,
             [Call.ensure_connected, Call.update_prim])
        ∧ getattr (removeOp now e false).1 "deleted_on" = some now)
    ∧ removeOp now e true = (e, [Call.ensure_connected, Call.remove_prim])
    ∧ (hasattr e "deleted_on" = false →
        removeOp now e false
          = (e, [Call.ensure_connected, Call.remove_prim])) := by
  refine ⟨fun h => ⟨?_, ?_⟩, ?_, fun h => ?_⟩
  · simp [removeOp, h]
  · simp [removeOp, h, getattr_setattr_self]
  · simp [removeOp]
  · simp [removeOp, h]

/-- Witness for claim C4 at concrete entities: one with a deleted_on
attribute (soft deleted at time seven) and one without (hard
deleted). -/
theorem remove_soft_delete_contract_witness :
    removeOp 7 [("deleted_on", 0)] false
      = ([("deleted_on", 7)], [Call.ensure_connected, Call.update_prim])
    ∧ removeOp 7 [("x", 1)] false
      = ([("x", 1)], [Call.ensure_connected, Call.remove_prim]) :=
  ⟨((remove_soft_delete_contract 7 [("deleted_on", 0)]).1 rfl).1,
   (remove_soft_delete_contract 7 [("x", 1)]).2.2 rfl⟩

/-- Claim C9: update touches at most the updated_on attribute (set to
the current time when the entity has one, in particular deleted_on is
untouched) and then issues the update primitive. -/
theorem update_frame (now : Int) (e : Attrs) (k : String)
    (hk : k ≠ "updated_on") :
    getattr (updateOp now e).1 k = getattr e k
    ∧ (updateOp now e).2 = [Call.ensure_connected, Call.update_prim]
    ∧ (hasattr e "updated_on" = true →
        getattr (updateOp now e).1 "updated_on" = some now) := by
  refine ⟨?_, rfl, fun h => ?_⟩
  · by_cases hu : hasattr e "updated_on"
    · simp [updateOp, hu, getattr_setattr_ne _ _ _ _ hk]
    · simp [updateOp, hu]
  · simp [updateOp, h, getattr_setattr_self]

/-- Witness for claim C9 at a concrete entity carrying updated_on and
deleted_on: deleted_on keeps its value, updated_on becomes the
current time. -/
theorem update_frame_witness :
    getattr (updateOp 9 [("updated_on", 0), ("deleted_on", 3)]).1 "deleted_on"
      = some 3
    ∧ getattr (updateOp 9 [("updated_on", 0), ("deleted_on", 3)]).1 "updated_on"
      = some 9 :=
  ⟨(update_frame 9 [("updated_on", 0), ("deleted_on", 3)] "deleted_on"
      (by decide)).1.trans rfl,
   (update_frame 9 [("updated_on", 0), ("deleted_on", 3)] "deleted_on"
      (by decide)).2.2 rfl⟩

/-- Claim C7 (counterexample): the public execute operation calls the
raw SQL primitive with no preceding ensure-connected call, refuting
the claim that every public operation calls _ensure_connected before
touching storage. -/
theorem execute_skips_ensure_connected :
    ensuresBeforeStorage (executeCalls "sql/select.sql") = false
    ∧ ensuresBeforeStorage clearCalls = false := ⟨rfl, rfl⟩

/-- Claim C7 as amended: add, all, find, remove and update call
_ensure_connected (via _check_prerequisites) before any storage
primitive, while execute, and the operations that delegate to it
(clear, destroy, create_table, create_index, add_column), touch
storage without a preceding ensure-connected call. -/
theorem ensure_connected_discipline :
    ensuresBeforeStorage addCalls = true
    ∧ ensuresBeforeStorage allCalls = true
    ∧ ensuresBeforeStorage findCalls = true
    ∧ (∀ (now : Int) (e : Attrs) (force : Bool),
        ensuresBeforeStorage (removeOp now e force).2 = true)
    ∧ (∀ (now : Int) (e : Attrs),
        ensuresBeforeStorage (updateOp now e).2 = true)
    ∧ (∀ t : String, ensuresBeforeStorage (executeCalls t) = false)
    ∧ ensuresBeforeStorage destroyCalls = false
    ∧ ensuresBeforeStorage create_tableCalls = false
    ∧ ensuresBeforeStorage create_indexCalls = false
    ∧ ensuresBeforeStorage add_columnCalls = false := by
  refine ⟨rfl, rfl, rfl, ?_, fun now e => rfl, fun t => rfl, rfl, rfl, rfl, rfl⟩
  intro now e force
  unfold removeOp
  by_cases h : hasattr e "deleted_on" && !force <;>
    simp [h, ensuresBeforeStorage]

/-- Claim C8 (counterexample): comparing an event against a tuple of
types, a value that is neither a type nor a string, does not return
False: the builtin isinstance accepts a tuple of types, so the
comparison returns True whenever the event is an instance of one of
its members. -/
theorem eventEq_tuple_counterexample :
    ¬ (∀ (e : EventModel) (v : PyVal),
        (∀ t : PyType, v ≠ PyVal.type t) →
        (∀ s : String, v ≠ PyVal.str s) →
        eventEq e v = false) := by
  intro h
  have h2 := h sampleEvent (PyVal.tupleOfTypes ["firefly.Event"])
    (fun t ht => by cases ht) (fun s hs => by cases hs)
  have h3 : eventEq sampleEvent (PyVal.tupleOfTypes ["firefly.Event"]) = true :=
    by decide
  rw [h3] at h2
  cases h2

/-- Claim C8 as amended: an event compares equal to its own qualified
name string and to every type it is an instance of; a non-matching
string and a value that is neither a type, a tuple of types nor a
string compare False rather than raising; a tuple of types compares
equal exactly when the event is an instance of one of its members. -/
theorem eventEq_contract (e : EventModel) (t : PyType)
    (ht : e.instanceTypes.contains t = true) :
    eventEq e (PyVal.str (strEvent e)) = true
    ∧ eventEq e (PyVal.type t) = true
    ∧ (∀ s : String, s ≠ strEvent e → eventEq e (PyVal.str s) = false)
    ∧ eventEq e PyVal.otherVal = false
    ∧ (∀ ts : List PyType,
        eventEq e (PyVal.tupleOfTypes ts)
          = ts.any (fun u => e.instanceTypes.contains u)) := by
  refine ⟨?_, ?_, ?_, rfl, ?_⟩
  · simp [eventEq]
  · have htm : t ∈ e.instanceTypes := by simpa using ht
    simp [eventEq, isinstanceEvent, htm]
  · intro s hs
    simp [eventEq, isinstanceEvent, hs]
  · intro ts
    simp [eventEq, isinstanceEvent]

/-- Witness for claim C8 as amended, at the concrete sample event. -/
theorem eventEq_contract_witness :
    eventEq sampleEvent (PyVal.str "firefly.ContainerRegistered") = true
    ∧ eventEq sampleEvent (PyVal.type "firefly.Event") = true
    ∧ eventEq sampleEvent (PyVal.str "nope") = false
    ∧ eventEq sampleEvent PyVal.otherVal = false := by
  have h := eventEq_contract sampleEvent "firefly.Event" (by decide)
  exact ⟨h.1, h.2.1, h.2.2.1 "nope" (by decide), h.2.2.2.1⟩

/-- Claim C3: with criteria, sort, limit and offset all supplied (and
the identifier argument absent), the query service returns an
Envelope whose items are the storage-sorted full matching sequence
restricted to the positions from offset up to offset plus limit:
although the code slices the lazy collection before recording the
sort, both are delegated to a single storage query that sorts the
whole matching set before applying offset and limit. -/
theorem queryCall_sort_before_slice {E : Type} (idOf : E → String)
    (db : List E) (p : E → Bool) (f : List E → List E) (o l : Nat) :
    queryCall idOf db
      { criteria := some p, sortKw := some f,
        limitKw := some (some l), offsetKw := some (some o) }
      = QueryResult.envelope (((f (db.filter p)).drop o).take l) o l
          (((db.filter p).length : Int) - 1) := by
  simp [queryCall, LazyQuery.getSlice, LazyQuery.sortBy, LazyQuery.toList,
        LazyQuery.matching, LazyQuery.pyLen, Nat.add_sub_cancel_left]

/-- Claim C10: the query service wraps its result in an Envelope only
when both the limit and the offset keyword arguments are supplied;
when exactly one of the two is supplied it is ignored and the full,
unsliced list of matching entities (with any sort applied) is
returned as a plain sequence. -/
theorem queryCall_envelope_only_both {E : Type} (idOf : E → String)
    (db : List E) (kw : QueryKwargs E) (hid : kw.idArg = none) :
    (∀ (items : List E) (o l : Nat) (t : Int),
        queryCall idOf db kw = QueryResult.envelope items o l t →
        kw.limitKw.isSome = true ∧ kw.offsetKw.isSome = true)
    ∧ (kw.limitKw.isSome = true → kw.offsetKw = none →
        queryCall idOf db kw
          = QueryResult.plain (sortedOf kw.sortKw (matchingOf db kw.criteria)))
    ∧ (kw.limitKw = none → kw.offsetKw.isSome = true →
        queryCall idOf db kw
          = QueryResult.plain (sortedOf kw.sortKw (matchingOf db kw.criteria))) := by
  obtain ⟨idA, c, s, lk, ok⟩ := kw
  simp only at hid
  subst hid
  refine ⟨?_, ?_, ?_⟩
  · intro items o l t h
    rcases lk with _ | lv
    · rcases ok with _ | ov <;> simp [queryCall] at h
    · rcases ok with _ | ov
      · simp [queryCall] at h
      · exact ⟨rfl, rfl⟩
  · intro hl ho
    subst ho
    rcases lk with _ | lv
    · cases hl
    · rcases s with _ | sf <;> rcases c with _ | cp <;>
        simp [queryCall, LazyQuery.toList, LazyQuery.sortBy,
              LazyQuery.matching, sortedOf, matchingOf]
  · intro hl ho
    subst hl
    rcases ok with _ | ov
    · cases ho
    · rcases s with _ | sf <;> rcases c with _ | cp <;>
        simp [queryCall, LazyQuery.toList, LazyQuery.sortBy,
              LazyQuery.matching, sortedOf, matchingOf]

/-- Witness for claim C10: with only the limit key supplied, the
whole database comes back as a plain list. -/
theorem queryCall_envelope_only_both_witness :
    queryCall (fun n : Nat => toString n) [1, 2, 3]
      { limitKw := some (some 5) }
      = QueryResult.plain [1, 2, 3] :=
  (queryCall_envelope_only_both (fun n : Nat => toString n) [1, 2, 3]
    { limitKw := some (some 5) } rfl).2.1 rfl rfl

/-- Default storage configuration (neither map-all nor index mapping),
used in concrete witnesses. -/
def cfgStd : StorageCfg := {}

/-- Concrete entity field list used in witnesses: an id-tagged id
field and an untagged email field. -/
def sampleFields : List FieldMeta :=
  [{ name := "id", typeName := "str", idMeta := some true },
   { name := "email", typeName := "str" }]

/-- Claim C5: when map-all mode is off, for an entity whose field
names do not start with an underscore, are pairwise distinct and do
not include document, the derived columns contain one column per
id-tagged field (and per index-tagged field when index mapping is
on), exactly one extra document column of string type, and no column
for a field lacking both tags. -/
theorem get_entity_columns_document_contract
    (cfg : StorageCfg) (fs : List FieldMeta)
    (hall : cfg.map_all = false)
    (hpriv : ∀ f ∈ fs, pyStartsUnderscore f.name = false)
    (hdoc : ∀ f ∈ fs, f.name ≠ "document")
    (hnd : (fs.map FieldMeta.name).Nodup) :
    (∀ f ∈ fs, f.idMeta.isSome = true →
        fieldColumn f ∈ get_entity_columns cfg fs)
    ∧ (cfg.map_indexes = true →
        ∀ f ∈ fs, f.indexTag.isSome = true →
          fieldColumn f ∈ get_entity_columns cfg fs)
    ∧ (get_entity_columns cfg fs).filter (fun c => c.name == "document")
        = [documentColumn]
    ∧ (∀ f ∈ fs, f.idMeta = none → f.indexTag = none →
        ∀ c ∈ get_entity_columns cfg fs, c.name ≠ f.name) := by
  have hrw : get_entity_columns cfg fs
      = pyInsert 1 documentColumn ((fs.filter (mapsField cfg)).map fieldColumn) := by
    simp [get_entity_columns, hall]
  refine ⟨?_, ?_, ?_, ?_⟩
  · intro f hf hid
    rw [hrw]
    refine mem_pyInsert.mpr (Or.inr (List.mem_map_of_mem _ ?_))
    exact List.mem_filter.mpr ⟨hf, by simp [mapsField, hpriv f hf, hid]⟩
  · intro hmi f hf hidx
    rw [hrw]
    refine mem_pyInsert.mpr (Or.inr (List.mem_map_of_mem _ ?_))
    exact List.mem_filter.mpr ⟨hf, by simp [mapsField, hpriv f hf, hmi, hidx]⟩
  · rw [hrw]
    refine filter_pyInsert _ _ _ _ ?_ rfl
    intro c hc
    obtain ⟨g, hg, rfl⟩ := List.mem_map.mp hc
    have hgfs : g ∈ fs := List.mem_of_mem_filter hg
    simp [fieldColumn, hdoc g hgfs]
  · intro f hf hid hidx c hc hname
    rw [hrw] at hc
    rcases mem_pyInsert.mp hc with rfl | hcr
    · exact hdoc f hf hname.symm
    · obtain ⟨g, hg, rfl⟩ := List.mem_map.mp hcr
      obtain ⟨hgfs, hguard⟩ := List.mem_filter.mp hg
      have hgf : g = f :=
        List.inj_on_of_nodup_map hnd hgfs hf hname
      rw [hgf] at hguard
      simp [mapsField, hall, hid, hidx] at hguard

/-- Witness for claim C5 at the concrete sample entity: the id column
is among the derived columns and the document column appears exactly
once. -/
theorem get_entity_columns_document_contract_witness :
    fieldColumn { name := "id", typeName := "str", idMeta := some true }
      ∈ get_entity_columns cfgStd sampleFields
    ∧ (get_entity_columns cfgStd sampleFields).filter
        (fun c => c.name == "document") = [documentColumn] := by
  have h := get_entity_columns_document_contract cfgStd sampleFields
    rfl (by decide) (by decide) (by decide)
  exact ⟨h.1 _ (by decide) rfl, h.2.2.1⟩

/-- Claim C6: column derivation is a pure function of the field
metadata (equal metadata gives equal column lists), and the derived
columns other than the inserted document column carry the entity's
field names in declaration order (their name sequence is a sublist of
the declared field-name sequence). -/
theorem get_entity_columns_pure_ordered
    (cfg : StorageCfg) (fs fs2 : List FieldMeta)
    (heq : fs = fs2) (hdoc : ∀ f ∈ fs, f.name ≠ "document") :
    get_entity_columns cfg fs = get_entity_columns cfg fs2
    ∧ List.Sublist
        (((get_entity_columns cfg fs).filter
            (fun c => !(c.name == "document"))).map Column.name)
        (fs.map FieldMeta.name) := by
  subst heq
  refine ⟨rfl, ?_⟩
  have hnames : ∀ c ∈ (fs.filter (mapsField cfg)).map fieldColumn,
      (!(c.name == "document")) = true := by
    intro c hc
    obtain ⟨g, hg, rfl⟩ := List.mem_map.mp hc
    simp [fieldColumn, hdoc g (List.mem_of_mem_filter hg)]
  have hmain : (get_entity_columns cfg fs).filter (fun c => !(c.name == "document"))
      = (fs.filter (mapsField cfg)).map fieldColumn := by
    cases hall : cfg.map_all
    · have hrw : get_entity_columns cfg fs
          = pyInsert 1 documentColumn ((fs.filter (mapsField cfg)).map fieldColumn) := by
        simp [get_entity_columns, hall]
      rw [hrw]
      exact filter_pyInsert_of_none _ _ _ _ hnames (by decide)
    · have hrw : get_entity_columns cfg fs
          = (fs.filter (mapsField cfg)).map fieldColumn := by
        simp [get_entity_columns, hall]
      rw [hrw]
      exact List.filter_eq_self.mpr hnames
  rw [hmain]
  have hcomp : ((fs.filter (mapsField cfg)).map fieldColumn).map Column.name
      = (fs.filter (mapsField cfg)).map FieldMeta.name := by
    rw [List.map_map]
    rfl
  rw [hcomp]
  exact List.Sublist.map FieldMeta.name (List.filter_sublist fs)

/-- Witness for claim C6 at the concrete sample entity. -/
theorem get_entity_columns_pure_ordered_witness :
    get_entity_columns cfgStd sampleFields
      = get_entity_columns cfgStd sampleFields
    ∧ List.Sublist
        (((get_entity_columns cfgStd sampleFields).filter
            (fun c => !(c.name == "document"))).map Column.name)
        (sampleFields.map FieldMeta.name) :=
  get_entity_columns_pure_ordered cfgStd sampleFields sampleFields rfl
    (by decide)

end Firefly
